import Mathlib

/-!
Verification development for the terminator-computation core of the
qgis-earthsunmoon plugin (src/terminator.py).

The Python source operates on numpy float arrays; the shallow embedding
below models the numeric values in an arbitrary linear ordered field
(instantiated at `ℚ` for executable witnesses and at `ℝ` for the
transcendental solar-position part).  Parallel numpy arrays
`(longitudes, latitudes)` are modelled as lists of pairs, indexed
identically.  Python's `%` on floats (sign of the divisor, used with
positive divisors only here) is floor-based and is modelled by `pymod`.
-/

set_option linter.unusedSectionVars false
set_option linter.unusedVariables false
set_option maxRecDepth 100000
set_option maxHeartbeats 2000000

namespace EarthSunMoon

/- `Rat` arithmetic in Batteries is marked irreducible, which blocks kernel
evaluation of the concrete rational examples below; restore the default
transparency for this file. -/
attribute [local semireducible] Rat.add Rat.sub Rat.mul Rat.inv Rat.ofScientific

variable {α : Type} [LinearOrderedField α] [FloorRing α]

/-- Python / numpy modulo on field elements: `a % b = a - b*⌊a/b⌋`
(result has the sign of `b`; only used with `b > 0` in the source). -/
def pymod (a b : α) : α := a - b * ⌊a / b⌋

/-- Longitude normalization `(lon + 180) % 360 - 180` into `[-180, 180)`
(terminator.py lines 85, 141, 226). -/
def normLon180 (x : α) : α := pymod (x + 180) 360 - 180

/-- numpy `isclose(a, b)` with the default tolerances
`atol = 1e-8`, `rtol = 1e-5`: `|a - b| ≤ atol + rtol*|b|`
(used at terminator.py lines 244 and 247 with `b = -180`). -/
def iscloseB (a b : α) : Bool := decide (|a - b| ≤ 1/100000000 + 1/100000 * |b|)

/-- Indices of the antimeridian transitions of a longitude sequence:
`np.where(np.abs(longitudes[:-1] - longitudes[1:]) > 180)[0] + 1`
(terminator.py line 228). -/
def get_transitions (lon : List α) : List ℕ :=
  ((List.range (lon.length - 1)).filter
    fun j => decide (180 < |lon.getD j 0 - lon.getD (j+1) 0|)).map (· + 1)

/-- The closed curve `np.append(lon, lon[0]), np.append(lat, lat[0])`
(terminator.py line 225).  On the empty input the Python code raises
`IndexError`; callers guard that case, see `calc_polygons`. -/
def closedCurve (t : List (α × α)) : List (α × α) := t ++ [t.headD (0, 0)]

/-- The closed curve with all longitudes normalized into `[-180, 180)`
(terminator.py line 226). -/
def closedNormalized (t : List (α × α)) : List (α × α) :=
  (closedCurve t).map fun p => (normLon180 p.1, p.2)

/-- Transition indices of the closed normalized curve
(terminator.py line 229). -/
def initialTransitions (t : List (α × α)) : List ℕ :=
  get_transitions ((closedNormalized t).map Prod.fst)

/-- `np.insert(arr, i, x)`: insert `x` before position `i`. -/
def insertAt (l : List (α × α)) (i : ℕ) (x : α × α) : List (α × α) :=
  l.take i ++ x :: l.drop i

/-- One iteration of the loop at terminator.py lines 243-249: if the point
before (resp. at) transition index `t` has longitude isclose to `-180`,
duplicate its latitude at longitude `+180`, inserted before position `t`.
The second test re-reads the possibly already extended list, exactly as the
Python code re-reads the mutated array. -/
def insertStep (l : List (α × α)) (t : ℕ) : List (α × α) :=
  let l1 := if iscloseB (l.getD (t-1) (0, 0)).1 (-180)
    then insertAt l t (180, (l.getD (t-1) (0, 0)).2) else l
  if iscloseB (l1.getD t (0, 0)).1 (-180)
    then insertAt l1 t (180, (l1.getD t (0, 0)).2) else l1

/-- The whole insertion loop, iterating over `transitions[::-1]`
(terminator.py line 243). -/
def insertPhase (l : List (α × α)) (ts : List ℕ) : List (α × α) :=
  ts.reverse.foldl insertStep l

/-- The closed curve after the `±180°` duplication step. -/
def insertedCurve (t : List (α × α)) : List (α × α) :=
  insertPhase (closedNormalized t) (initialTransitions t)

/-- The transition indices recomputed after the insertions
(terminator.py line 250). -/
def finalTransitions (t : List (α × α)) : List ℕ :=
  get_transitions ((insertedCurve t).map Prod.fst)

/-- `lon, lat = lon[:-1], lat[:-1]`: drop the closing duplicate
(terminator.py line 251). -/
def openCurve (t : List (α × α)) : List (α × α) := (insertedCurve t).dropLast

/-- `p = lon.argsort(); lon, lat = lon[p], lat[p]` (terminator.py lines
253-254): reorder the points by ascending longitude.  numpy's default
argsort is an unstable quicksort; any reorder realizing the ascending
longitude order is observationally the same for distinct keys, and the
embedding fixes the stable insertion sort. -/
def sortedOpen (t : List (α × α)) : List (α × α) :=
  (openCurve t).insertionSort fun a b => a.1 ≤ b.1

/-- `y_level = -90 + 180*(self.solar_lat <= 0)` (terminator.py line 256):
Python booleans multiply as 0/1. -/
def ylevel (slat : α) : α := -90 + 180 * (if slat ≤ 0 then 1 else 0)

/-- `np.append(p, p[0])` for each polygon (terminator.py lines 268-269). -/
def closeRing : List (α × α) → List (α × α)
  | [] => []
  | h :: t => (h :: t) ++ [h]

/-- The corner points appended when `refraction < 0` and the curve has no
transitions (terminator.py lines 236-237), paired. -/
def invertCorners : List (α × α) :=
  [(180, 90), (180, -90), (-180, -90), (-180, 90), (180, 90)]

/-- First arc `lon[transitions[0]:transitions[1]]` in the two-transition
case (terminator.py line 259). -/
def arc1 (t : List (α × α)) : List (α × α) :=
  ((openCurve t).take ((finalTransitions t).getD 1 0)).drop
    ((finalTransitions t).getD 0 0)

/-- Second arc `np.append(lon[transitions[1]:], lon[:transitions[0]])`
(terminator.py line 260). -/
def arc2 (t : List (α × α)) : List (α × α) :=
  (openCurve t).drop ((finalTransitions t).getD 1 0) ++
    (openCurve t).take ((finalTransitions t).getD 0 0)

/-- The merge of the two arcs through the map corners when
`refraction < 0` (terminator.py lines 262-266), with the western polygon
put first. -/
def mergeWest (p0 p1 : List (α × α)) : List (α × α) :=
  if 0 < (p0.headD (0, 0)).1 then
    p1 ++ [(-180, -90), (180, -90)] ++ p0 ++ [(180, 90), (-180, 90)]
  else
    p0 ++ [(-180, -90), (180, -90)] ++ p1 ++ [(180, 90), (-180, 90)]

/-- The two output lists of `Terminator.calc_polygons`. -/
structure PolyResult (α : Type) where
  polygons : List (List (α × α))
  edges : List (List (α × α))
deriving DecidableEq

/-- Shallow embedding of `Terminator.calc_polygons` (terminator.py lines
211-269) as a function of the unclosed terminator curve, the sub-solar
latitude and the refraction.  `none` models the `IndexError` the source
raises at `lon[0]` on an empty curve; every nonempty curve produces a
result, there is no other failure path in the source.  The branch bodies
are the named stage functions above; the branch structure mirrors the
source: early return at zero transitions (line 233), then the sequential
`size == 1` / `size == 2` tests (lines 252, 258), then the closing loop
(lines 267-269) applied to the polygons of those two branches only. -/
def calc_polygons (t : List (α × α)) (solar_lat refraction : α) :
    Option (PolyResult α) :=
  if t = [] then none
  else some <|
    if initialTransitions t = [] then
      ⟨if refraction < 0 then [(closedNormalized t).reverse ++ invertCorners]
        else [closedNormalized t],
       [closedNormalized t]⟩
    else if (finalTransitions t).length = 1 then
      ⟨[closeRing (sortedOpen t ++
          [(180, ylevel solar_lat), (-180, ylevel solar_lat)])],
       [sortedOpen t]⟩
    else if (finalTransitions t).length = 2 then
      ⟨if refraction < 0 then [closeRing (mergeWest (arc1 t) (arc2 t))]
        else [closeRing (arc1 t), closeRing (arc2 t)],
       [arc1 t, arc2 t]⟩
    else ⟨[], []⟩

/-- A ring is explicitly closed: nonempty with its first vertex repeated
as its last vertex. -/
def isClosed (l : List (α × α)) : Prop := l ≠ [] ∧ l.head? = l.getLast?

/-- Remove the closing duplicate vertex of a ring, when there is one. -/
def stripClosingDup (l : List (α × α)) : List (α × α) :=
  if 2 ≤ l.length ∧ l.head? = l.getLast? then l.dropLast else l

/-- A ring lies entirely on one side of the `±180°` longitude line,
synthetic boundary vertices (longitude `±180`) excepted. -/
def onOneSide (ring : List (α × α)) : Prop :=
  (∀ p ∈ ring, |p.1| = 180 ∨ 0 ≤ p.1) ∨ (∀ p ∈ ring, |p.1| = 180 ∨ p.1 ≤ 0)

instance (l : List (α × α)) : Decidable (isClosed l) :=
  inferInstanceAs (Decidable (l ≠ [] ∧ l.head? = l.getLast?))

instance (ring : List (α × α)) : Decidable (onOneSide ring) :=
  inferInstanceAs (Decidable ((∀ p ∈ ring, |p.1| = 180 ∨ 0 ≤ p.1) ∨
    (∀ p ∈ ring, |p.1| = 180 ∨ p.1 ≤ 0)))


/-! ### Example curves used by the concrete-input theorems -/

/-- A curve crossing the antimeridian exactly once (between its last and
first points), away from exact `-180` longitudes. -/
def exCurveA : List (ℚ × ℚ) := [(-170, 0), (-60, 10), (60, 10), (170, 0)]

/-- A closed curve crossing the antimeridian three times: two eastward
crossings and one westward crossing (winding number one). -/
def exCurveB : List (ℚ × ℚ) :=
  [(170, 0), (-170, 1), (-100, 2), (0, 3), (100, 4), (170, 5), (-170, 6)]

/-- A one-crossing curve with a vertex at exactly `-180`, adjacent to the
crossing, so that the `±180°` duplication step fires. -/
def exCurveC : List (ℚ × ℚ) := [(-180, 0), (-60, 10), (60, 10), (170, 0)]

/-- A curve crossing the antimeridian exactly twice whose first arc spans
longitudes from `-179` to `170` across the prime meridian. -/
def exCurveD : List (ℚ × ℚ) :=
  [(179, 0), (-179, 1), (-60, 2), (60, 3), (170, 4),
   (-175, 5), (-90, 6), (0, 7), (90, 8)]

/-- A small curve with no antimeridian crossing. -/
def exCurveE : List (ℚ × ℚ) := [(10, 0), (20, 10), (30, 0)]

/-- A three-point curve crossing the antimeridian once. -/
def exCurveF : List (ℚ × ℚ) := [(-170, 0), (0, 10), (170, 0)]

/-- A two-point curve crossing the antimeridian twice. -/
def exCurveG : List (ℚ × ℚ) := [(170, 1), (-170, 2)]

/-! ### Solar position (terminator.py lines 187-209)

The static method `Terminator.solar_position` is closed-form real
arithmetic and trigonometry.  The UTC instant enters only through
`T_UT1 = (date - 2000-01-01T12:00) / 1 day / 36525`, the Julian centuries
since J2000; the embedding takes `T` itself as the time variable, which
ranges over all of `ℝ` as the datetime ranges over all representable
instants. -/

open Real in
/-- numpy `deg2rad`. -/
noncomputable def deg2rad (x : ℝ) : ℝ := x * (π / 180)

open Real in
/-- numpy `rad2deg`. -/
noncomputable def rad2deg (x : ℝ) : ℝ := x * (180 / π)

/-- numpy `arctan2(y, x)`: the argument of the point `(x, y)`, in
`(-π, π]` (numpy and `Complex.arg` agree on real inputs; floating signed
zeros have no counterpart in `ℝ`). -/
noncomputable def arctan2 (y x : ℝ) : ℝ := Complex.arg (x + y * Complex.I)

/-- Mean solar longitude `(280.460 + 36000.771*T) % 360` (line 196). -/
noncomputable def lambda_M_sun (T : ℝ) : ℝ := pymod (280.460 + 36000.771 * T) 360

/-- Mean solar anomaly `(357.5277233 + 35999.05034*T) % 360` (line 197). -/
noncomputable def M_sun (T : ℝ) : ℝ := pymod (357.5277233 + 35999.05034 * T) 360

/-- Ecliptic longitude (line 198). -/
noncomputable def lambda_ecliptic (T : ℝ) : ℝ :=
  lambda_M_sun T + 1.914666471 * Real.sin (deg2rad (M_sun T)) +
    0.019994643 * Real.sin (deg2rad (2 * M_sun T))

/-- Obliquity of the ecliptic `23.439291 - 0.0130042*T` (line 199). -/
noncomputable def epsilon_obliquity (T : ℝ) : ℝ := 23.439291 - 0.0130042 * T

/-- Declination of the sun (line 200), the returned sub-solar latitude. -/
noncomputable def delta_sun (T : ℝ) : ℝ :=
  rad2deg (Real.arcsin (Real.sin (deg2rad (epsilon_obliquity T)) *
    Real.sin (deg2rad (lambda_ecliptic T))))

/-- Right-ascension numerator (line 202). -/
noncomputable def alpha_numerator (T : ℝ) : ℝ :=
  Real.cos (deg2rad (epsilon_obliquity T)) *
    Real.sin (deg2rad (lambda_ecliptic T)) /
    Real.cos (deg2rad (delta_sun T))

/-- Right-ascension denominator (line 203). -/
noncomputable def alpha_denominator (T : ℝ) : ℝ :=
  Real.cos (deg2rad (lambda_ecliptic T)) / Real.cos (deg2rad (delta_sun T))

/-- Right ascension `arctan2(numerator, denominator)` in degrees
(line 204). -/
noncomputable def alpha_sun (T : ℝ) : ℝ :=
  rad2deg (arctan2 (alpha_numerator T) (alpha_denominator T))

/-- Greenwich mean sidereal time in degrees:
`(seconds-polynomial % 86400) / 240` (line 206). -/
noncomputable def theta_GMST (T : ℝ) : ℝ :=
  pymod (67310.54841 + (876600 * 3600 + 8640184.812866) * T +
    0.093104 * T ^ 2 - 6.2e-6 * T ^ 3) 86400 / 240

/-- The raw sub-solar longitude `-(theta_GMST - alpha_sun)` (line 207). -/
noncomputable def solar_lon_raw (T : ℝ) : ℝ := -(theta_GMST T - alpha_sun T)

/-- The final normalization `if lon < -180: lon += 360` (line 208),
polymorphic so the same definition is evaluated on rational inputs. -/
def normalize_lon (x : α) : α := if x < -180 then x + 360 else x

/-- The returned sub-solar longitude. -/
noncomputable def solar_lon (T : ℝ) : ℝ := normalize_lon (solar_lon_raw T)

/-- Shallow embedding of `Terminator.solar_position` as a function of the
Julian centuries `T` since J2000. -/
noncomputable def solar_position (T : ℝ) : ℝ × ℝ := (solar_lon T, delta_sun T)

/-! ### Construction-time validation (terminator.py lines 61-67, 103-122)

`Terminator.__init__` validates only the datetime: an aware datetime with
a truthy (nonzero) `utcoffset()` raises `ValueError` at line 64;
`timedelta(0)` — a UTC-aware datetime — is falsy and passes, as does a
naive one.  `delta` is never validated.  A nonpositive `delta`
nevertheless fails, but only inside `_method_rotation`, which `set_date`
calls after `solar_position` has already been computed (line 73 before
line 75): `180/self.delta` raises `ZeroDivisionError` at `delta = 0`,
`np.empty(N*2)` raises `ValueError` for negative `N = int(180/delta)`
(line 113), and for `N = 0` (when `|delta| > 180`) `np.delete(longitude,
[N, -1])` raises `IndexError` on the length-0 array (line 122).  For
`delta ∈ (0, 10]` (so `N ≥ 18`) none of these fire; the later numpy
stages only produce NaNs, which are filtered, not raised.  The model
records the stage at which the first exception occurs. -/

/-- Stage of the construction at which an exception is raised:
the explicit validation of `__init__` (before any computation), or the
geometry computation started by `set_date`. -/
inductive InitStage where
  | validate
  | geometry
deriving DecidableEq

/-- The Python exception kinds raised along the modelled path. -/
inductive InitFailure where
  | nonUTC
  | zeroDivision
  | negativeDimension
  | indexOutOfBounds
deriving DecidableEq

/-- Outcome of constructing a `Terminator`. -/
inductive InitResult where
  | ok : InitResult
  | failed (stage : InitStage) (failure : InitFailure) : InitResult
deriving DecidableEq

/-- Python `int()`: truncation toward zero. -/
def intTrunc (q : α) : ℤ := if 0 ≤ q then ⌊q⌋ else ⌈q⌉

/-- The datetime's `utcoffset()` (`none` for a naive datetime) under
Python truthiness: `timedelta(0)` is falsy, so only a nonzero offset
triggers the check at line 63. -/
def offsetTruthy : Option ℚ → Bool
  | none => false
  | some o => decide (o ≠ 0)

/-- The construction of `Terminator(date, delta, ...)` up to and including
the array allocation and double-entry deletion of `_method_rotation`. -/
def terminator_init (utcoffset : Option ℚ) (delta : ℚ) : InitResult :=
  if offsetTruthy utcoffset then .failed .validate .nonUTC
  else if delta = 0 then .failed .geometry .zeroDivision
  else if intTrunc (180 / delta) < 0 then .failed .geometry .negativeDimension
  else if intTrunc (180 / delta) = 0 then .failed .geometry .indexOutOfBounds
  else .ok

/-! ### Curve sorter `Terminator._sort` (terminator.py lines 83-100) -/

/-- Componentwise dot product on 3-vectors (`(u*v).sum(1)`). -/
def dot3 (u v : ℝ × ℝ × ℝ) : ℝ := u.1 * v.1 + u.2.1 * v.2.1 + u.2.2 * v.2.2

/-- `np.cross` on 3-vectors. -/
def cross3 (u v : ℝ × ℝ × ℝ) : ℝ × ℝ × ℝ :=
  (u.2.1 * v.2.2 - u.2.2 * v.2.1,
   u.2.2 * v.1 - u.1 * v.2.2,
   u.1 * v.2.1 - u.2.1 * v.1)

/-- `np.linalg.norm`. -/
noncomputable def norm3 (u : ℝ × ℝ × ℝ) : ℝ := Real.sqrt (dot3 u u)

/-- Cartesian unit vector of a `(lon, lat)` pair in radians (line 89). -/
noncomputable def lonlat_vec (p : ℝ × ℝ) : ℝ × ℝ × ℝ :=
  (Real.cos p.2 * Real.cos p.1, Real.cos p.2 * Real.sin p.1, Real.sin p.2)

/-- The anti-sunward vector (line 88), solar coordinates in radians. -/
noncomputable def vec_sunlight (slon slat : ℝ) : ℝ × ℝ × ℝ :=
  (-(Real.cos slat * Real.cos slon), -(Real.cos slat * Real.sin slon),
   -Real.sin slat)

/-- `reference_right = cross(vec_sunlight, ẑ)` (line 90). -/
noncomputable def reference_right (slon slat : ℝ) : ℝ × ℝ × ℝ :=
  cross3 (vec_sunlight slon slat) (0, 0, 1)

/-- `reference_up = cross(reference_right, vec_sunlight)` (line 91). -/
noncomputable def reference_up (slon slat : ℝ) : ℝ × ℝ × ℝ :=
  cross3 (reference_right slon slat) (vec_sunlight slon slat)

/-- The sort key of `_sort` (lines 92-96) for a radian `(lon, lat)` pair:
the source's `projection = vec_vertices - (vec_sunlight*vec_vertices)
.sum(1) * vec_vertices` verbatim, then `arctan2` of the normalized
components against the in-plane basis.  A zero projection divides by
zero: the embedding's total division returns `0` where numpy produces
NaNs (which numpy's argsort orders last) — a degenerate tie either way. -/
noncomputable def sortAngle (slon slat : ℝ) (p : ℝ × ℝ) : ℝ :=
  let v := lonlat_vec p
  let s := vec_sunlight slon slat
  let proj := (v.1 - dot3 s v * v.1, v.2.1 - dot3 s v * v.2.1,
    v.2.2 - dot3 s v * v.2.2)
  let sine := dot3 (reference_up slon slat) proj /
    norm3 (reference_up slon slat) / norm3 proj
  let cosine := dot3 (reference_right slon slat) proj /
    norm3 (reference_right slon slat) / norm3 proj
  arctan2 sine cosine

/-- Shallow embedding of `Terminator._sort`: normalize longitudes into
`[-180, 180)`, convert to radians, order by descending angle as seen from
the sun (`argsort()[::-1]`, modeled by a sort on the reversed relation —
ties are broken arbitrarily by numpy's unstable quicksort), convert back
to degrees. -/
noncomputable def Terminator_sort (slon slat : ℝ) (pts : List (ℝ × ℝ)) :
    List (ℝ × ℝ) :=
  ((((pts.map fun p => (normLon180 p.1, p.2)).map
      fun p => (deg2rad p.1, deg2rad p.2)).insertionSort fun a b =>
    sortAngle (deg2rad slon) (deg2rad slat) b ≤
      sortAngle (deg2rad slon) (deg2rad slat) a).map
    fun p => (rad2deg p.1, rad2deg p.2))

/-! ### The two samplers and the full construction (terminator.py 27-81)

These definitions carry the remaining pipeline so that the whole
`Terminator(date, delta, refraction, calculate_polygons)` construction is
a function of its arguments; no theorem below inspects their numeric
output, only the (absence of) state they read. -/

/-- numpy `linspace(a, b, n)` with its default inclusive endpoint;
`linspace(a, b, 1) = [a]` and `linspace(a, b, 0) = []`. -/
noncomputable def linspace (a b : ℝ) (n : ℕ) : List ℝ :=
  if n ≤ 1 then (List.range n).map fun _ => a
  else (List.range n).map fun i => a + (b - a) * i / (n - 1)

/-- `np.delete(arr, [n, -1])`: the last position and position `n` are
removed (each position once, duplicates collapsing, and out-of-range `n`
after the first removal matching numpy's duplicate-index collapse at
`n = len - 1`). -/
def deleteNLast {β : Type} (l : List β) (n : ℕ) : List β :=
  (l.eraseIdx (l.length - 1)).eraseIdx n

/-- The per-point spherical rotation of `_method_rotation`
(lines 126-141), input in degrees.  When `|z1| = 0` the source's
`|z2|/|z1|` is `+inf` (the two moduli cannot vanish together, the
rotation being unitary) and `2*arctan(inf) = π`, reproduced by the
guard. -/
noncomputable def rotatePoint (slat slon : ℝ) (p : ℝ × ℝ) : ℝ × ℝ :=
  let theta := deg2rad (90 - p.2)
  let phi := deg2rad p.1
  let dtheta := deg2rad slat
  let dphi := deg2rad slon
  let z1 : ℂ := (Real.cos (-dtheta / 2) * Real.cos (theta / 2) : ℝ) -
    (Real.sin (-dtheta / 2) : ℝ) *
      (Complex.exp (Complex.I * (phi : ℂ)) * (Real.sin (theta / 2) : ℝ))
  let z2 : ℂ := (Real.sin (-dtheta / 2) * Real.cos (theta / 2) : ℝ) +
    (Real.cos (-dtheta / 2) : ℝ) *
      (Complex.exp (Complex.I * (phi : ℂ)) * (Real.sin (theta / 2) : ℝ))
  let ntheta := if Complex.abs z1 = 0 then Real.pi
    else 2 * Real.arctan (Complex.abs z2 / Complex.abs z1)
  let nphi := Complex.arg z2 - Complex.arg z1 + dphi
  let lat0 := pymod (90 - rad2deg ntheta + 90) 360 - 90
  let lon0 := if 90 ≤ lat0 then rad2deg nphi - 180 else rad2deg nphi
  let lat1 := if 90 ≤ lat0 then 180 - lat0 else lat0
  (normLon180 lon0, lat1)

/-- `Terminator._method_rotation` (lines 103-142): latitudes equally
spaced over `±(90+refraction)` up then down, sunrise hour-angle
longitudes, the double-entry deletion at indices `[N, -1]`, the NaN
filter (a sample is NaN exactly when the `arccos` argument falls outside
`[-1, 1]` or its division blew up), then the rotation. -/
noncomputable def method_rotation (slat slon delta refr : ℝ) :
    List (ℝ × ℝ) :=
  let N : ℕ := (intTrunc (180 / delta)).toNat
  let latsUp := linspace (-(90 + refr)) (90 + refr) N
  let omega0 := fun la : ℝ =>
    rad2deg (Real.arccos (Real.sin (deg2rad refr) / Real.cos (deg2rad la)))
  let pairs := (latsUp.map fun la => (-(180 - omega0 la), la)) ++
    ((latsUp.reverse).map fun la => (180 - omega0 la, la))
  let pairs2 := deleteNLast pairs N
  let pairs3 := pairs2.filter fun q =>
    decide (Real.cos (deg2rad q.2) ≠ 0 ∧
      |Real.sin (deg2rad refr) / Real.cos (deg2rad q.2)| ≤ 1)
  pairs3.map fun q => rotatePoint slat slon q

/-- `Terminator._method_longitudes` (lines 144-185): per-longitude
quadratic in `sin(latitude)`; longitudes with negative discriminant (or a
vanished denominator, NaN in the source) are dropped, the two roots are
range-filtered and verified against the great-circle distance to the
sub-solar point with numpy's default `isclose` tolerances. -/
noncomputable def method_longitudes (slat slon delta refr : ℝ) :
    List (ℝ × ℝ) :=
  let sl := deg2rad slat
  let so := deg2rad slon
  let rr := deg2rad refr
  let n : ℕ := (⌊(360 : ℝ) / delta⌋ + 1).toNat
  let lons := ((linspace (-180) 180 n).dropLast).map deg2rad
  let alpha := -rr
  let denom := fun w : ℝ => (Real.cos sl * Real.cos w) ^ 2
  let aa := fun w => Real.sin sl ^ 2 / denom w + 1
  let bb := fun w => -2 * Real.sin alpha * Real.sin sl / denom w
  let cc := fun w => Real.sin alpha ^ 2 / denom w - 1
  let disc := fun w => bb w ^ 2 - 4 * aa w * cc w
  let valid := lons.filter fun lo =>
    decide (denom (so - lo) ≠ 0 ∧ 0 ≤ disc (so - lo))
  let sinPlus := fun w => (-bb w + Real.sqrt (disc w)) / (2 * aa w)
  let sinMinus := fun w => (-bb w - Real.sqrt (disc w)) / (2 * aa w)
  let plusPairs := (valid.filter fun lo =>
    decide (-1 ≤ sinPlus (so - lo) ∧ sinPlus (so - lo) ≤ 1)).map
      fun lo => (lo, Real.arcsin (sinPlus (so - lo)))
  let minusPairs := (valid.filter fun lo =>
    decide (-1 ≤ sinMinus (so - lo) ∧ sinMinus (so - lo) ≤ 1)).map
      fun lo => (lo, Real.arcsin (sinMinus (so - lo)))
  let combined := plusPairs ++ minusPairs.reverse
  let angleToSun := fun (q : ℝ × ℝ) =>
    Real.arccos (Real.sin q.2 * Real.sin sl +
      Real.cos q.2 * Real.cos sl * Real.cos (pymod |so - q.1| 360))
  let checked := combined.filter fun q =>
    iscloseB (angleToSun q) (Real.pi / 2 + rr)
  checked.map fun q => (rad2deg q.1, rad2deg q.2)

/-- Ambient module state.  `terminator.py` declares no module-level
mutable variable and its class no class-level attribute; the construction
below accordingly never reads this parameter — which is the content of
claim C8. -/
structure World where
  cells : ℕ → ℤ

/-- The observable state of a constructed `Terminator` object.
`hasPolygons` records whether `calc_polygons` has run (the `hasattr`
check of line 81); `polyResult` is its result (`none` both when it was
not requested and for the empty-curve `IndexError`). -/
structure TState where
  date : ℝ
  delta : ℝ
  refraction : ℝ
  solar_lon : ℝ
  solar_lat : ℝ
  terminator : List (ℝ × ℝ)
  hasPolygons : Bool
  polyResult : Option (PolyResult ℝ)

/-- `solar_position` of a date given as real days since J2000 (line 195
divides by 36525 to get Julian centuries). -/
noncomputable def solar_position_of_date (d : ℝ) : ℝ × ℝ :=
  solar_position (d / 36525)

/-- Lines 74-80: merge the two samplers and sort. -/
noncomputable def computeTerminator (slon slat delta refr : ℝ) :
    List (ℝ × ℝ) :=
  Terminator_sort slon slat
    (method_rotation slat slon delta refr ++
      method_longitudes slat slon delta refr)

/-- The recomputation body of `set_date` (lines 72-81). -/
noncomputable def recompute (delta refr : ℝ) (hasPoly : Bool) (d : ℝ) :
    TState :=
  ⟨d, delta, refr,
   (solar_position_of_date d).1, (solar_position_of_date d).2,
   computeTerminator (solar_position_of_date d).1
     (solar_position_of_date d).2 delta refr,
   hasPoly,
   if hasPoly then
     calc_polygons
       (computeTerminator (solar_position_of_date d).1
         (solar_position_of_date d).2 delta refr)
       (solar_position_of_date d).2 refr
   else none⟩

/-- `Terminator.__init__` after its validation (lines 65-67): a fresh
object has no cached date, so `set_date` recomputes unconditionally, and
`calc_polygons` runs iff requested.  The `World` argument is ignored
because the source reads no ambient state. -/
noncomputable def Terminator_mk (w : World) (d delta refr : ℝ)
    (calcPoly : Bool) : TState :=
  recompute delta refr calcPoly d

/-- `Terminator.set_date` on an already constructed object (lines 69-81),
including the unchanged-date early return. -/
noncomputable def set_date (s : TState) (d : ℝ) : TState :=
  if d = s.date then s
  else recompute s.delta s.refraction s.hasPolygons d

/-! ### Structural lemmas about the stage functions -/

lemma insertPhase_nil (l : List (α × α)) : insertPhase l [] = l := rfl

lemma finalTransitions_of_initial_nil {t : List (α × α)}
    (h : initialTransitions t = []) : finalTransitions t = initialTransitions t := by
  unfold finalTransitions insertedCurve
  rw [h, insertPhase_nil]
  exact h

lemma initialTransitions_ne_nil_of_final {t : List (α × α)}
    (h : finalTransitions t ≠ []) : initialTransitions t ≠ [] := by
  intro h0
  exact h ((finalTransitions_of_initial_nil h0).trans h0)

lemma mem_get_transitions_bounds {l : List α} {x : ℕ}
    (h : x ∈ get_transitions l) : 1 ≤ x ∧ x ≤ l.length - 1 := by
  unfold get_transitions at h
  simp only [List.mem_map, List.mem_filter, List.mem_range] at h
  obtain ⟨j, ⟨hj, _⟩, rfl⟩ := h
  omega

lemma get_transitions_pairwise (l : List α) :
    (get_transitions l).Pairwise (· < ·) :=
  ((List.pairwise_lt_range _).filter _).map _
    (fun _ _ h => Nat.add_lt_add_right h 1)

lemma mem_finalTransitions_bounds {t : List (α × α)} {x : ℕ}
    (h : x ∈ finalTransitions t) : 1 ≤ x ∧ x ≤ (openCurve t).length := by
  have hb := mem_get_transitions_bounds h
  have : (openCurve t).length = (insertedCurve t).length - 1 := by
    simp [openCurve]
  simp only [List.length_map] at hb
  omega

lemma isClosed_cons_concat (x : α × α) (l : List (α × α)) :
    isClosed (x :: (l ++ [x])) := by
  unfold isClosed
  refine ⟨by simp, ?_⟩
  rw [← List.cons_append, List.getLast?_concat]
  rfl

lemma isClosed_closeRing {l : List (α × α)} (h : l ≠ []) :
    isClosed (closeRing l) := by
  obtain ⟨a, m, rfl⟩ := List.exists_cons_of_ne_nil h
  exact isClosed_cons_concat a m

lemma isClosed_closedNormalized {t : List (α × α)} (h : t ≠ []) :
    isClosed (closedNormalized t) := by
  obtain ⟨a, m, rfl⟩ := List.exists_cons_of_ne_nil h
  unfold closedNormalized closedCurve
  simp only [List.map_append, List.map_cons, List.map_nil, List.headD_cons]
  exact isClosed_cons_concat _ _

/-! ### Branch lemmas for `calc_polygons` -/

lemma calc_polygons_case0 {t : List (α × α)} (slat r : α) (ht : t ≠ [])
    (h0 : initialTransitions t = []) :
    calc_polygons t slat r = some
      ⟨if r < 0 then [(closedNormalized t).reverse ++ invertCorners]
        else [closedNormalized t],
       [closedNormalized t]⟩ := by
  unfold calc_polygons
  rw [if_neg ht, if_pos h0]

lemma calc_polygons_case1 {t : List (α × α)} (slat r : α) (ht : t ≠ [])
    (h1 : (finalTransitions t).length = 1) :
    calc_polygons t slat r = some
      ⟨[closeRing (sortedOpen t ++
          [(180, ylevel slat), (-180, ylevel slat)])],
       [sortedOpen t]⟩ := by
  have hi : initialTransitions t ≠ [] := by
    apply initialTransitions_ne_nil_of_final
    intro h
    rw [h] at h1
    simp at h1
  unfold calc_polygons
  rw [if_neg ht, if_neg hi, if_pos h1]

lemma calc_polygons_case2 {t : List (α × α)} (slat r : α) (ht : t ≠ [])
    (h2 : (finalTransitions t).length = 2) :
    calc_polygons t slat r = some
      ⟨if r < 0 then [closeRing (mergeWest (arc1 t) (arc2 t))]
        else [closeRing (arc1 t), closeRing (arc2 t)],
       [arc1 t, arc2 t]⟩ := by
  have hi : initialTransitions t ≠ [] := by
    apply initialTransitions_ne_nil_of_final
    intro h
    rw [h] at h2
    simp at h2
  have h1 : (finalTransitions t).length ≠ 1 := by omega
  unfold calc_polygons
  rw [if_neg ht, if_neg hi, if_neg h1, if_pos h2]

lemma calc_polygons_caseMany {t : List (α × α)} (slat r : α) (ht : t ≠ [])
    (h3 : 3 ≤ (finalTransitions t).length) :
    calc_polygons t slat r = some ⟨[], []⟩ := by
  have hi : initialTransitions t ≠ [] := by
    apply initialTransitions_ne_nil_of_final
    intro h
    rw [h] at h3
    simp at h3
  have h1 : (finalTransitions t).length ≠ 1 := by omega
  have h2 : (finalTransitions t).length ≠ 2 := by omega
  unfold calc_polygons
  rw [if_neg ht, if_neg hi, if_neg h1, if_neg h2]

/-- In the two-crossing case the two transition indices are ordered and
in range. -/
lemma finalTransitions_two_facts {t : List (α × α)}
    (h2 : (finalTransitions t).length = 2) :
    ∃ a b, finalTransitions t = [a, b] ∧ 1 ≤ a ∧ a < b ∧
      b ≤ (openCurve t).length := by
  obtain ⟨a, b, hab⟩ := List.length_eq_two.mp h2
  have ha : a ∈ finalTransitions t := by rw [hab]; simp
  have hb : b ∈ finalTransitions t := by rw [hab]; simp
  have hab' : a < b := by
    have hp := get_transitions_pairwise
      ((insertedCurve t).map Prod.fst)
    rw [show get_transitions ((insertedCurve t).map Prod.fst)
        = finalTransitions t from rfl, hab, List.pairwise_cons] at hp
    exact hp.1 b (by simp)
  obtain ⟨ha1, _⟩ := mem_finalTransitions_bounds ha
  obtain ⟨_, hb2⟩ := mem_finalTransitions_bounds hb
  exact ⟨a, b, hab, ha1, hab', hb2⟩

/-- In the two-crossing case both arcs are nonempty. -/
lemma arcs_ne_nil {t : List (α × α)}
    (h2 : (finalTransitions t).length = 2) : arc1 t ≠ [] ∧ arc2 t ≠ [] := by
  obtain ⟨a, b, hab, ha1, hab', hb2⟩ := finalTransitions_two_facts h2
  have hget0 : (finalTransitions t).getD 0 0 = a := by rw [hab]; rfl
  have hget1 : (finalTransitions t).getD 1 0 = b := by rw [hab]; rfl
  constructor
  · intro hnil
    have hlen : (arc1 t).length = 0 := by rw [hnil]; rfl
    rw [arc1, hget0, hget1, List.length_drop, List.length_take] at hlen
    omega
  · intro hnil
    have htk : (openCurve t).take a ≠ [] := by
      intro htnil
      have hlen : ((openCurve t).take a).length = 0 := by rw [htnil]; rfl
      rw [List.length_take] at hlen
      omega
    unfold arc2 at hnil
    rw [hget0, hget1] at hnil
    exact htk (List.append_eq_nil.mp hnil).2

lemma mergeWest_ne_nil (p0 p1 : List (α × α)) : mergeWest p0 p1 ≠ [] := by
  unfold mergeWest
  split_ifs <;> simp

/-! ### Claim C1 -/

/-- C1 (amended): on every succeeding input, the single edges ring of the
zero-crossing case is explicitly closed, and every polygons ring of the
one- and two-crossing cases is explicitly closed; the edges rings of the
one- and two-crossing cases are emitted without a closing duplicate (see
the counterexample), the closing loop of the source touching only
`self.polygons` there. -/
theorem calc_polygons_ring_closure (t : List (α × α)) (slat r : α)
    (res : PolyResult α) (ht : t ≠ [])
    (hres : calc_polygons t slat r = some res) :
    (initialTransitions t = [] → ∀ ring ∈ res.edges, isClosed ring) ∧
    (1 ≤ (finalTransitions t).length → (finalTransitions t).length ≤ 2 →
      ∀ ring ∈ res.polygons, isClosed ring) := by
  constructor
  · intro h0 ring hring
    rw [calc_polygons_case0 slat r ht h0] at hres
    obtain rfl := Option.some.inj hres
    rw [List.mem_singleton] at hring
    subst hring
    exact isClosed_closedNormalized ht
  · intro hge hle ring hring
    have h12 : (finalTransitions t).length = 1 ∨
        (finalTransitions t).length = 2 := by omega
    rcases h12 with h1 | h2
    · rw [calc_polygons_case1 slat r ht h1] at hres
      obtain rfl := Option.some.inj hres
      rw [List.mem_singleton] at hring
      subst hring
      exact isClosed_closeRing (by simp)
    · rw [calc_polygons_case2 slat r ht h2] at hres
      obtain rfl := Option.some.inj hres
      by_cases hr : r < 0
      · rw [if_pos hr] at hring
        rw [List.mem_singleton] at hring
        subst hring
        exact isClosed_closeRing (mergeWest_ne_nil _ _)
      · rw [if_neg hr] at hring
        simp only [List.mem_cons, List.not_mem_nil, or_false] at hring
        rcases hring with rfl | rfl
        · exact isClosed_closeRing (arcs_ne_nil h2).1
        · exact isClosed_closeRing (arcs_ne_nil h2).2

/-- C1 (counterexample): for a curve crossing the antimeridian exactly
once, `calc_polygons` succeeds but the emitted edges ring is not closed
(its first vertex `(-170, 0)` is not repeated at the end). -/
theorem calc_polygons_one_crossing_edges_open :
    ∃ res : PolyResult ℚ,
      calc_polygons exCurveA (-10) (83/100) = some res ∧
        ¬ ∀ ring ∈ res.edges, isClosed ring :=
  ⟨⟨[[(-170, 0), (-60, 10), (60, 10), (170, 0), (180, 90), (-180, 90),
      (-170, 0)]],
    [[(-170, 0), (-60, 10), (60, 10), (170, 0)]]⟩, by decide, by decide⟩

/-- C1 (witness): the amended closure statement evaluated on a concrete
two-crossing curve. -/
theorem calc_polygons_ring_closure_witness :
    isClosed [((-170 : ℚ), (2 : ℚ)), (-170, 2)] ∧
    isClosed [((170 : ℚ), (1 : ℚ)), (170, 1)] :=
  have h := (calc_polygons_ring_closure exCurveG 5 1
      ⟨[[(-170, 2), (-170, 2)], [(170, 1), (170, 1)]],
       [[(-170, 2)], [(170, 1)]]⟩
      (by decide) (by decide)).2 (by decide) (by decide)
  ⟨h _ (by decide), h _ (by decide)⟩

/-! ### Claim C2 -/

/-- C2 (amended): in the one-crossing case the polygon is closed through
two new vertices at longitudes `+180` and `-180` whose shared latitude is
`+90` when the sub-solar latitude is `≤ 0` (the north pole is then in
darkness) and `-90` otherwise — the opposite poles from the ones the
claim names. -/
theorem calc_polygons_one_crossing_pole (t : List (α × α)) (slat r : α)
    (ht : t ≠ []) (h1 : (finalTransitions t).length = 1) :
    calc_polygons t slat r = some
      ⟨[closeRing (sortedOpen t ++
          [(180, ylevel slat), (-180, ylevel slat)])],
       [sortedOpen t]⟩ ∧
    ylevel slat = if slat ≤ 0 then (90 : α) else -90 := by
  refine ⟨calc_polygons_case1 slat r ht h1, ?_⟩
  unfold ylevel
  split_ifs <;> norm_num

/-- C2 (counterexample): with sub-solar latitude `-10 ≤ 0` the one-crossing
polygon receives its two synthetic `±180` vertices at latitude `+90`, and
no vertex at latitude `-90` exists, contradicting the claimed `y = -90`. -/
theorem calc_polygons_one_crossing_pole_cex :
    ((-10 : ℚ) ≤ 0) ∧
    ∃ res : PolyResult ℚ,
      calc_polygons exCurveA (-10) (83/100) = some res ∧
        ∀ ring ∈ res.polygons,
          ((180 : ℚ), (90 : ℚ)) ∈ ring ∧ ((-180 : ℚ), (90 : ℚ)) ∈ ring ∧
          ((180 : ℚ), (-90 : ℚ)) ∉ ring ∧ ((-180 : ℚ), (-90 : ℚ)) ∉ ring :=
  ⟨by decide,
    ⟨⟨[[(-170, 0), (-60, 10), (60, 10), (170, 0), (180, 90), (-180, 90),
        (-170, 0)]],
      [[(-170, 0), (-60, 10), (60, 10), (170, 0)]]⟩, by decide, by decide⟩⟩

/-- C2 (witness): the amended pole-closure statement evaluated on a
concrete one-crossing curve with positive sub-solar latitude. -/
theorem calc_polygons_one_crossing_pole_witness :
    calc_polygons exCurveF (5 : ℚ) 1 = some
      ⟨[closeRing (sortedOpen exCurveF ++
          [(180, ylevel 5), (-180, ylevel 5)])],
       [sortedOpen exCurveF]⟩ ∧
    ylevel (5 : ℚ) = if (5 : ℚ) ≤ 0 then (90 : ℚ) else -90 :=
  calc_polygons_one_crossing_pole exCurveF 5 1 (by decide) (by decide)

/-! ### Claim C3 -/

/-- C3 (amended): when the curve still jumps by more than `180°` at more
than two index positions after the `±180°` duplication step,
`calc_polygons` raises nothing and silently returns the empty partial
result: both `edges` and `polygons` are empty lists. -/
theorem calc_polygons_many_crossings_empty (t : List (α × α)) (slat r : α)
    (ht : t ≠ []) (h3 : 3 ≤ (finalTransitions t).length) :
    calc_polygons t slat r = some ⟨[], []⟩ :=
  calc_polygons_caseMany slat r ht h3

/-- C3 (counterexample): a curve with three antimeridian crossings (before
and after the duplication step) on which `calc_polygons` runs to
completion and returns empty `edges` and `polygons` instead of raising. -/
theorem calc_polygons_three_crossings_silent :
    3 ≤ (initialTransitions exCurveB).length ∧
    3 ≤ (finalTransitions exCurveB).length ∧
    calc_polygons exCurveB (5 : ℚ) (83/100) = some ⟨[], []⟩ :=
  ⟨by decide, by decide, by decide⟩

/-- C3 (witness): the amended empty-result statement evaluated on the
three-crossing curve with different solar latitude and refraction. -/
theorem calc_polygons_many_crossings_empty_witness :
    calc_polygons exCurveB (7 : ℚ) 1 = some ⟨[], []⟩ :=
  calc_polygons_many_crossings_empty exCurveB 7 1 (by decide) (by decide)

/-! ### Claim C7 -/

/-- C7 (amended): with exactly two crossings and nonnegative refraction,
`calc_polygons` returns exactly two polygons (the two arcs, each closed)
and the two open arcs as edges; the rings need not lie on one side of the
antimeridian (see the counterexample). -/
theorem calc_polygons_two_crossings_split (t : List (α × α)) (slat r : α)
    (ht : t ≠ []) (h2 : (finalTransitions t).length = 2) (hr : 0 ≤ r) :
    calc_polygons t slat r = some
      ⟨[closeRing (arc1 t), closeRing (arc2 t)], [arc1 t, arc2 t]⟩ ∧
    isClosed (closeRing (arc1 t)) ∧ isClosed (closeRing (arc2 t)) := by
  have hcase := calc_polygons_case2 slat r ht h2
  rw [if_neg (not_lt.mpr hr)] at hcase
  exact ⟨hcase, isClosed_closeRing (arcs_ne_nil h2).1,
    isClosed_closeRing (arcs_ne_nil h2).2⟩

/-- C7 (counterexample): a curve with exactly two crossings and refraction
`0 ≥ 0` whose first polygon ring contains the ordinary vertices
`(-60, 2)` and `(60, 3)` — points on both sides of the antimeridian that
are not synthetic `±180` boundary vertices. -/
theorem calc_polygons_two_crossings_both_sides :
    (finalTransitions exCurveD).length = 2 ∧
    ∃ res : PolyResult ℚ,
      calc_polygons exCurveD 5 0 = some res ∧ res.polygons.length = 2 ∧
        ∃ ring ∈ res.polygons, ¬ onOneSide ring :=
  ⟨by decide,
    ⟨⟨[[(-179, 1), (-60, 2), (60, 3), (170, 4), (-179, 1)],
       [(-175, 5), (-90, 6), (0, 7), (90, 8), (179, 0), (-175, 5)]],
      [[(-179, 1), (-60, 2), (60, 3), (170, 4)],
       [(-175, 5), (-90, 6), (0, 7), (90, 8), (179, 0)]]⟩,
     by decide, by decide,
     ⟨[(-179, 1), (-60, 2), (60, 3), (170, 4), (-179, 1)],
      by decide, by decide⟩⟩⟩

/-! ### Claim C4 -/

lemma normLon180_eq_self {x : α} (h1 : -180 ≤ x) (h2 : x < 180) :
    normLon180 x = x := by
  unfold normLon180 pymod
  have hf : ⌊(x + 180) / 360⌋ = 0 := by
    rw [Int.floor_eq_zero_iff, Set.mem_Ico]
    constructor
    · exact div_nonneg (by linarith) (by norm_num)
    · exact (div_lt_one (by norm_num)).mpr (by linarith)
  rw [hf]
  push_cast
  ring

/-- When all longitudes already lie in `[-180, 180)` the normalization of
the closed curve is the identity. -/
lemma closedNormalized_eq_closedCurve {t : List (α × α)}
    (hnorm : ∀ p ∈ t, -180 ≤ p.1 ∧ p.1 < 180) :
    closedNormalized t = closedCurve t := by
  unfold closedNormalized
  have hcongr : List.map (fun p : α × α => (normLon180 p.1, p.2))
      (closedCurve t) = List.map id (closedCurve t) := by
    apply List.map_congr_left
    intro p hp
    have hb : -180 ≤ p.1 ∧ p.1 < 180 := by
      rw [closedCurve, List.mem_append] at hp
      rcases hp with hp | hp
      · exact hnorm p hp
      · rw [List.mem_singleton] at hp
        subst hp
        cases t with
        | nil => norm_num
        | cons a l => exact hnorm _ (by simp)
    show (normLon180 p.1, p.2) = id p
    rw [normLon180_eq_self hb.1 hb.2]
    rfl
  rw [hcongr, List.map_id]

/-- Without insertions and with normalized input longitudes, dropping the
closing duplicate recovers the original curve. -/
lemma openCurve_eq_self {t : List (α × α)}
    (hnorm : ∀ p ∈ t, -180 ≤ p.1 ∧ p.1 < 180)
    (hins : insertedCurve t = closedNormalized t) : openCurve t = t := by
  unfold openCurve
  rw [hins, closedNormalized_eq_closedCurve hnorm, closedCurve,
    List.dropLast_concat]

/-- C4 (amended): provided the curve's longitudes already lie in
`[-180, 180)` and the `±180°` duplication step inserts nothing (no curve
point isclose to `-180` beside a crossing), the concatenated edges rings
are a permutation of the terminator's points — after removing the closing
duplicate in the zero-crossing case, the rings of the one- and
two-crossing cases being emitted open.  When an insertion fires this
fails: a synthetic point at longitude `+180` is added (see the
counterexample). -/
theorem calc_polygons_edges_points (t : List (α × α)) (slat r : α)
    (res : PolyResult α) (ht : t ≠ [])
    (hnorm : ∀ p ∈ t, -180 ≤ p.1 ∧ p.1 < 180)
    (hins : insertedCurve t = closedNormalized t)
    (hres : calc_polygons t slat r = some res) :
    (initialTransitions t = [] → (res.edges.flatten).dropLast.Perm t) ∧
    (1 ≤ (finalTransitions t).length → (finalTransitions t).length ≤ 2 →
      (res.edges.flatten).Perm t) := by
  have hopen : openCurve t = t := openCurve_eq_self hnorm hins
  constructor
  · intro h0
    rw [calc_polygons_case0 slat r ht h0] at hres
    obtain rfl := Option.some.inj hres
    show ([closedNormalized t].flatten).dropLast.Perm t
    simp only [List.flatten_cons, List.flatten_nil, List.append_nil]
    rw [closedNormalized_eq_closedCurve hnorm, closedCurve,
      List.dropLast_concat]
  · intro hge hle
    have h12 : (finalTransitions t).length = 1 ∨
        (finalTransitions t).length = 2 := by omega
    rcases h12 with h1 | h2
    · rw [calc_polygons_case1 slat r ht h1] at hres
      obtain rfl := Option.some.inj hres
      show ([sortedOpen t].flatten).Perm t
      simp only [List.flatten_cons, List.flatten_nil, List.append_nil]
      unfold sortedOpen
      have hperm := List.perm_insertionSort
        (fun a b : α × α => a.1 ≤ b.1) (openCurve t)
      have hrefl : (openCurve t).Perm t := by rw [hopen]
      exact hperm.trans hrefl
    · rw [calc_polygons_case2 slat r ht h2] at hres
      obtain rfl := Option.some.inj hres
      show ([arc1 t, arc2 t].flatten).Perm t
      simp only [List.flatten_cons, List.flatten_nil, List.append_nil]
      obtain ⟨a, b, hab, ha1, hlt, hb2⟩ := finalTransitions_two_facts h2
      have hget0 : (finalTransitions t).getD 0 0 = a := by rw [hab]; rfl
      have hget1 : (finalTransitions t).getD 1 0 = b := by rw [hab]; rfl
      unfold arc1 arc2
      rw [hget0, hget1]
      have h1 : ((openCurve t).take b).take a = (openCurve t).take a := by
        rw [List.take_take, inf_eq_left.mpr hlt.le]
      have hsplit : (openCurve t).take a ++
          (((openCurve t).take b).drop a ++ (openCurve t).drop b) =
          openCurve t := by
        rw [← List.append_assoc, ← h1, List.take_append_drop,
          List.take_append_drop]
      conv_rhs => rw [← hopen, ← hsplit]
      rw [← List.append_assoc]
      exact List.perm_append_comm

/-- C4 (counterexample): a one-crossing curve with a vertex at exactly
`-180°`: the duplication step adds a synthetic vertex `(180, 0)` which
lands in the edges ring, so the edges points (the ring carries no closing
duplicate) are not a permutation of the curve's points. -/
theorem calc_polygons_edges_points_cex :
    ∃ res : PolyResult ℚ,
      calc_polygons exCurveC 5 (83/100) = some res ∧
        ¬ ((res.edges.map stripClosingDup).flatten).Perm exCurveC ∧
        ((180 : ℚ), (0 : ℚ)) ∈ res.edges.flatten ∧
        ((180 : ℚ), (0 : ℚ)) ∉ exCurveC :=
  ⟨⟨[[(-180, 0), (-60, 10), (60, 10), (170, 0), (180, 0), (180, -90),
      (-180, -90), (-180, 0)]],
    [[(-180, 0), (-60, 10), (60, 10), (170, 0), (180, 0)]]⟩,
   by decide, by decide, by decide, by decide⟩

/-- C4 (witness): the amended round-trip statement evaluated on a concrete
zero-crossing curve. -/
theorem calc_polygons_edges_points_witness :
    ((⟨[[((10 : ℚ), (0 : ℚ)), (20, 10), (30, 0), (10, 0)]],
        [[(10, 0), (20, 10), (30, 0), (10, 0)]]⟩ :
      PolyResult ℚ).edges.flatten).dropLast.Perm exCurveE :=
  (calc_polygons_edges_points exCurveE 5 1
      ⟨[[(10, 0), (20, 10), (30, 0), (10, 0)]],
       [[(10, 0), (20, 10), (30, 0), (10, 0)]]⟩
      (by decide) (by decide) (by decide) (by decide)).1 (by decide)

/-- C7 (witness): the amended two-polygon statement evaluated on a
concrete two-crossing curve. -/
theorem calc_polygons_two_crossings_split_witness :
    calc_polygons exCurveG (9 : ℚ) 2 = some
      ⟨[closeRing (arc1 exCurveG), closeRing (arc2 exCurveG)],
       [arc1 exCurveG, arc2 exCurveG]⟩ ∧
    isClosed (closeRing (arc1 exCurveG)) ∧
    isClosed (closeRing (arc2 exCurveG)) :=
  calc_polygons_two_crossings_split exCurveG 9 2 (by decide) (by decide)
    (by decide)

/-! ### Claims C5 and C10 -/

lemma pymod_nonneg {b : α} (hb : 0 < b) (a : α) : 0 ≤ pymod a b := by
  unfold pymod
  have h1 : ((⌊a / b⌋ : ℤ) : α) ≤ a / b := Int.floor_le _
  have h2 : b * ((⌊a / b⌋ : ℤ) : α) ≤ b * (a / b) :=
    mul_le_mul_of_nonneg_left h1 hb.le
  rw [mul_comm b (a / b), div_mul_cancel₀ a hb.ne'] at h2
  linarith

lemma pymod_lt {b : α} (hb : 0 < b) (a : α) : pymod a b < b := by
  unfold pymod
  have h1 : a / b < (⌊a / b⌋ : ℤ) + 1 := Int.lt_floor_add_one _
  have h2 : b * (a / b) < b * (((⌊a / b⌋ : ℤ) : α) + 1) := by
    rw [mul_lt_mul_left hb]
    exact_mod_cast h1
  rw [mul_comm b (a / b), div_mul_cancel₀ a hb.ne'] at h2
  linarith [mul_one b]

open Real in
lemma theta_GMST_range (T : ℝ) : 0 ≤ theta_GMST T ∧ theta_GMST T < 360 := by
  unfold theta_GMST
  constructor
  · exact div_nonneg (pymod_nonneg (by norm_num) _) (by norm_num)
  · rw [div_lt_iff₀ (by norm_num : (0 : ℝ) < 240)]
    calc pymod _ (86400 : ℝ) < 86400 := pymod_lt (by norm_num) _
      _ = 360 * 240 := by norm_num

open Real in
lemma alpha_sun_range (T : ℝ) : -180 < alpha_sun T ∧ alpha_sun T ≤ 180 := by
  unfold alpha_sun rad2deg arctan2
  have hpos : 0 < 180 / π := by positivity
  have harg1 := Complex.neg_pi_lt_arg
    ((alpha_denominator T : ℂ) + alpha_numerator T * Complex.I)
  have harg2 := Complex.arg_le_pi
    ((alpha_denominator T : ℂ) + alpha_numerator T * Complex.I)
  have hpi : π * (180 / π) = 180 := by field_simp
  constructor
  · have := mul_lt_mul_of_pos_right harg1 hpos
    calc (-180 : ℝ) = -π * (180 / π) := by rw [neg_mul, hpi]
      _ < _ := this
  · calc _ ≤ π * (180 / π) := mul_le_mul_of_nonneg_right harg2 hpos.le
      _ = 180 := hpi

open Real in
lemma delta_sun_range (T : ℝ) : -90 ≤ delta_sun T ∧ delta_sun T ≤ 90 := by
  unfold delta_sun rad2deg
  have hpos : 0 < 180 / π := by positivity
  have h1 := Real.neg_pi_div_two_le_arcsin (Real.sin (deg2rad (epsilon_obliquity T)) *
    Real.sin (deg2rad (lambda_ecliptic T)))
  have h2 := Real.arcsin_le_pi_div_two (Real.sin (deg2rad (epsilon_obliquity T)) *
    Real.sin (deg2rad (lambda_ecliptic T)))
  have hpi : π / 2 * (180 / π) = 90 := by field_simp; ring
  constructor
  · calc (-90 : ℝ) = -(π / 2) * (180 / π) := by rw [neg_mul, hpi]
      _ ≤ _ := mul_le_mul_of_nonneg_right h1 hpos.le
  · calc _ ≤ π / 2 * (180 / π) := mul_le_mul_of_nonneg_right h2 hpos.le
      _ = 90 := hpi

/-- Supporting range bound for `solar_position`: for every UTC instant
(every real `T`), the sub-solar longitude lies in the closed interval
`[-180, 180]` and the sub-solar latitude in `[-90, 90]`.  This is the
interval the normalization of lines 207-208 guarantees; whether the
`+180` endpoint is ever attained by an actual instant (which would need
`alpha_sun - theta_GMST = 180` exactly) is left open, the two being
rigid transcendental functions of the same `T`. -/
theorem solar_position_range (T : ℝ) :
    (-180 ≤ (solar_position T).1 ∧ (solar_position T).1 ≤ 180) ∧
    -90 ≤ (solar_position T).2 ∧ (solar_position T).2 ≤ 90 := by
  have hθ := theta_GMST_range T
  have hα := alpha_sun_range T
  have hδ := delta_sun_range T
  refine ⟨?_, hδ⟩
  show -180 ≤ solar_lon T ∧ solar_lon T ≤ 180
  unfold solar_lon normalize_lon solar_lon_raw
  split_ifs with h
  · constructor <;> [linarith [hα.1, hθ.2]; linarith]
  · constructor <;> [linarith; linarith [hα.2, hθ.1]]

/-- Supporting observation on the normalization step alone: over the
documented component ranges `θ = theta_GMST ∈ [0, 360)` and
`α = arctan2 result ∈ (-180, 180]` taken as independent, the
normalization of lines 207-208 maps the pair `θ = 0`, `α = 180` to
exactly `+180` — it only adds `360` below `-180` and never excludes
`+180`.  This does not exhibit a UTC instant, since `θ` and `α` are
coupled through `T`. -/
theorem solar_lon_normalization_cex :
    ((0 : ℚ) ≤ 0 ∧ (0 : ℚ) < 360) ∧ ((-180 : ℚ) < 180 ∧ (180 : ℚ) ≤ 180) ∧
    normalize_lon (-((0 : ℚ) - 180)) = 180 ∧
    ¬ normalize_lon (-((0 : ℚ) - 180)) < 180 := by decide

/-- C10: for every UTC instant (every real `T`), the magnitude of the
sub-solar latitude `delta_sun T` is bounded by the magnitude of the
obliquity of the ecliptic `epsilon_obliquity T = 23.439291 - 0.0130042*T`
used in the formula — a far tighter bound than `[-90, 90]`. -/
theorem delta_sun_le_obliquity (T : ℝ) :
    |delta_sun T| ≤ |epsilon_obliquity T| := by
  have habs : ∀ s θ : ℝ, |s| ≤ |Real.sin θ| → |Real.arcsin s| ≤ |θ| := by
    intro s θ hs
    rcases le_or_lt (Real.pi / 2) |θ| with hθ | hθ
    · refine le_trans (abs_le.mpr ⟨Real.neg_pi_div_two_le_arcsin s,
        Real.arcsin_le_pi_div_two s⟩) hθ
    · have hsinabs : |Real.sin θ| = Real.sin |θ| := by
        rcases le_or_lt 0 θ with h0 | h0
        · rw [abs_of_nonneg h0] at hθ ⊢
          exact abs_of_nonneg (Real.sin_nonneg_of_nonneg_of_le_pi h0
            (by linarith [Real.pi_pos]))
        · rw [abs_of_neg h0] at hθ ⊢
          rw [Real.sin_neg]
          exact abs_of_neg (Real.sin_neg_of_neg_of_neg_pi_lt h0
            (by linarith [Real.pi_pos]))
      rw [hsinabs] at hs
      have hup : Real.arcsin s ≤ |θ| := by
        calc Real.arcsin s ≤ Real.arcsin (Real.sin |θ|) :=
              Real.monotone_arcsin ((le_abs_self s).trans hs)
          _ = |θ| := Real.arcsin_sin (by linarith [abs_nonneg θ, Real.pi_pos]) hθ.le
      have hlow : -|θ| ≤ Real.arcsin s := by
        have : Real.arcsin (-Real.sin |θ|) ≤ Real.arcsin s :=
          Real.monotone_arcsin (by
            have := neg_abs_le s
            linarith [hs])
        rw [Real.arcsin_neg, Real.arcsin_sin (by linarith [abs_nonneg θ, Real.pi_pos]) hθ.le] at this
        exact this
      exact abs_le.mpr ⟨hlow, hup⟩
  unfold delta_sun rad2deg
  have hpos : (0 : ℝ) < 180 / Real.pi := by positivity
  have hsle : |Real.sin (deg2rad (epsilon_obliquity T)) *
      Real.sin (deg2rad (lambda_ecliptic T))| ≤
      |Real.sin (deg2rad (epsilon_obliquity T))| := by
    rw [abs_mul]
    calc _ ≤ |Real.sin (deg2rad (epsilon_obliquity T))| * 1 :=
          mul_le_mul_of_nonneg_left
            (abs_le.mpr ⟨Real.neg_one_le_sin _, Real.sin_le_one _⟩)
            (abs_nonneg _)
      _ = _ := mul_one _
  have hkey := habs _ _ hsle
  calc |Real.arcsin _ * (180 / Real.pi)|
      = |Real.arcsin _| * (180 / Real.pi) := by
        rw [abs_mul, abs_of_pos hpos]
    _ ≤ |deg2rad (epsilon_obliquity T)| * (180 / Real.pi) :=
        mul_le_mul_of_nonneg_right hkey hpos.le
    _ = |epsilon_obliquity T| := by
        unfold deg2rad
        rw [abs_mul, abs_of_pos (by positivity : (0:ℝ) < Real.pi / 180)]
        field_simp

/-! ### Claim C6 -/

/-- C6 (amended): the explicit pre-computation error of `__init__` is
raised exactly when the datetime carries a nonzero UTC offset (a naive or
UTC-aware datetime passes); `delta_degrees ≤ 0` also always fails, but
only later, inside `_method_rotation`'s array handling, after the
sub-solar position has been computed — not "before any geometry" and not
through an explicit validation; and a naive/UTC datetime with
`delta_degrees ∈ (0, 10]` is accepted without error along the modelled
path. -/
theorem terminator_init_spec (off : Option ℚ) (delta : ℚ) :
    ((∃ f, terminator_init off delta = .failed .validate f) ↔
      offsetTruthy off = true) ∧
    (offsetTruthy off = false → delta ≤ 0 →
      ∃ f, terminator_init off delta = .failed .geometry f) ∧
    (offsetTruthy off = false → 0 < delta → delta ≤ 10 →
      terminator_init off delta = .ok) := by
  rcases Bool.eq_false_or_eq_true (offsetTruthy off) with hoff | hoff
  · refine ⟨⟨fun _ => hoff, fun _ => ⟨.nonUTC, ?_⟩⟩, ?_, ?_⟩
    · unfold terminator_init
      rw [hoff]
      simp
    · intro hf
      rw [hf] at hoff
      simp at hoff
    · intro hf
      rw [hf] at hoff
      simp at hoff
  · have hno : ∀ f, terminator_init off delta ≠ .failed .validate f := by
      intro f
      unfold terminator_init
      rw [hoff]
      simp only [Bool.false_eq_true, if_false]
      split_ifs <;> simp
    refine ⟨⟨fun h => absurd h.choose_spec (hno _), fun h => ?_⟩, ?_, ?_⟩
    · rw [h] at hoff
      simp at hoff
    · intro _ hdle
      by_cases h0 : delta = 0
      · refine ⟨.zeroDivision, ?_⟩
        unfold terminator_init
        rw [hoff]
        simp [h0]
      · have hdlt : delta < 0 := lt_of_le_of_ne hdle h0
        have hq : (180 : ℚ) / delta < 0 :=
          div_neg_of_pos_of_neg (by norm_num) hdlt
        have htr : intTrunc ((180 : ℚ) / delta) ≤ 0 := by
          unfold intTrunc
          rw [if_neg (not_le.mpr hq)]
          exact Int.ceil_le.mpr (by exact_mod_cast hq.le)
        by_cases hneg : intTrunc ((180 : ℚ) / delta) < 0
        · refine ⟨.negativeDimension, ?_⟩
          unfold terminator_init
          rw [hoff]
          simp [h0, hneg]
        · have hzero : intTrunc ((180 : ℚ) / delta) = 0 :=
            le_antisymm htr (not_lt.mp hneg)
          refine ⟨.indexOutOfBounds, ?_⟩
          unfold terminator_init
          rw [hoff]
          simp [h0, hneg, hzero]
    · intro _ hpos hle10
      have hq : (18 : ℚ) ≤ 180 / delta := by
        rw [le_div_iff₀ hpos]
        linarith
      have h18 : (18 : ℤ) ≤ intTrunc ((180 : ℚ) / delta) := by
        unfold intTrunc
        rw [if_pos (le_trans (by norm_num) hq)]
        exact Int.le_floor.mpr (by exact_mod_cast hq)
      unfold terminator_init
      rw [hoff]
      simp [hpos.ne',
        (show ¬ intTrunc ((180 : ℚ) / delta) < 0 by omega),
        (show ¬ intTrunc ((180 : ℚ) / delta) = 0 by omega)]

/-- C6 (counterexample): for a timezone-naive datetime and `delta = -1`
the claim demands an explicit error before any geometry is computed; the
code runs `solar_position` first and only then fails inside
`_method_rotation`'s `np.empty(N*2)` allocation: the failure is at the
geometry stage, not the validation stage. -/
theorem terminator_init_cex :
    offsetTruthy none = false ∧ ((-1 : ℚ) ≤ 0) ∧
    terminator_init none (-1) = .failed .geometry .negativeDimension ∧
    ∀ f, terminator_init none (-1) ≠ .failed .validate f := by
  refine ⟨by decide, by decide, by decide, ?_⟩
  intro f
  cases f <;> decide

/-- C6 (witness): a UTC-aware datetime (offset `timedelta(0)`, falsy) with
`delta = 1` is accepted without error. -/
theorem terminator_init_spec_witness :
    terminator_init (some 0) 1 = .ok :=
  (terminator_init_spec (some 0) 1).2.2 (by decide) (by decide) (by decide)

/-! ### Claim C9 -/

lemma rad2deg_deg2rad (x : ℝ) : rad2deg (deg2rad x) = x := by
  unfold rad2deg deg2rad
  have hpi := Real.pi_ne_zero
  field_simp

/-- C9: the curve sorter neither adds nor drops samples — for every input
point sequence and solar position, the output of `_sort` is a permutation
of the input points with each longitude normalized into `[-180, 180)`. -/
theorem Terminator_sort_perm (slon slat : ℝ) (pts : List (ℝ × ℝ)) :
    (Terminator_sort slon slat pts).Perm
      (pts.map fun p => (normLon180 p.1, p.2)) := by
  unfold Terminator_sort
  have hperm := (List.perm_insertionSort
    (fun a b : ℝ × ℝ =>
      sortAngle (deg2rad slon) (deg2rad slat) b ≤
        sortAngle (deg2rad slon) (deg2rad slat) a)
    ((pts.map fun p => (normLon180 p.1, p.2)).map
      fun p => (deg2rad p.1, deg2rad p.2))).map
    (fun p : ℝ × ℝ => (rad2deg p.1, rad2deg p.2))
  have hroundtrip : ((pts.map fun p => (normLon180 p.1, p.2)).map
      (fun p : ℝ × ℝ => (deg2rad p.1, deg2rad p.2))).map
      (fun p : ℝ × ℝ => (rad2deg p.1, rad2deg p.2)) =
      pts.map fun p => (normLon180 p.1, p.2) := by
    rw [List.map_map]
    have hcomp : ((fun p : ℝ × ℝ => (rad2deg p.1, rad2deg p.2)) ∘
        fun p : ℝ × ℝ => (deg2rad p.1, deg2rad p.2)) = id := by
      funext q
      simp [Function.comp, rad2deg_deg2rad]
    rw [hcomp, List.map_id]
  rw [hroundtrip] at hperm
  exact hperm

/-! ### Claim C8 -/

/-- C8: the construction is deterministic and reads no hidden state.
Two constructions from identical `(date, delta, refraction,
calculate_polygons)` inputs under arbitrary (and different) ambient
module states are the same state — sub-solar point, terminator, edges and
polygons included — and re-dating a constructed object with `set_date`
(whose unchanged-date cache is the only state kept between calls) agrees
with a fresh construction at the new date, so the cache cannot make two
runs differ. -/
theorem Terminator_construction_deterministic (w₁ w₂ : World)
    (d d₂ delta refr : ℝ) (calcPoly : Bool) :
    Terminator_mk w₁ d delta refr calcPoly =
      Terminator_mk w₂ d delta refr calcPoly ∧
    set_date (Terminator_mk w₁ d delta refr calcPoly) d₂ =
      Terminator_mk w₁ d₂ delta refr calcPoly := by
  refine ⟨rfl, ?_⟩
  unfold set_date
  by_cases h : d₂ = (Terminator_mk w₁ d delta refr calcPoly).date
  · rw [if_pos h]
    have hd : (Terminator_mk w₁ d delta refr calcPoly).date = d := rfl
    rw [hd] at h
    subst h
    rfl
  · rw [if_neg h]
    rfl

end EarthSunMoon
